import Mathlib

/-!
# Easy-Form: a verified shallow embedding

This file embeds the core of `src/assets/form/Form.ts` (classes `FormField`,
`FormFieldGroup`, `Form` built on `@sweet-monads/either`) and proves properties
of the embedded operations.

Modelling conventions:
* `Either<FailedMessage, R>` (right-biased) is `Except FailedMessage R`;
  `right` is `.ok`, `left` is `.error`, `chain` is `bind`, `map` is `map`.
* A TypeScript record `Record<string, FormField | FormFieldGroup>` is an
  association list `List (String × Node V F G)` in insertion order
  (`Object.values` enumerates string keys in insertion order).
* Validators are kept abstract: leaf validators are codes of type `F`
  interpreted by `evF : F → V → Except FailedMessage V`, group/form validators
  are codes of type `G` interpreted by
  `evG : G → fields → Except FailedMessage fields`.  This lets theorems
  quantify over arbitrary validator behaviour while keeping the tree type
  strictly positive, and lets an instrumented semantics record which validator
  codes were actually invoked.
* A thrown `Error` (the path engine throws; it does not return `Either`) is
  modelled as `Except String` carrying the thrown message.
-/

/-- Failure payload `{ message: string }` of the TS `FailedMessage` type. -/
structure FailedMessage where
  message : String
deriving DecidableEq, Repr

/-- Constructor argument `ValueValidator<R>[] | ValueValidator<R>`: either a
bare validator or an array of validators. -/
inductive ValidatorsArg (A : Type) where
  | one : A → ValidatorsArg A
  | many : List A → ValidatorsArg A
deriving DecidableEq, Repr

/-- `Array.isArray(validators) ? validators : [validators]` from the three
constructors. -/
def normalizeValidators {A : Type} : ValidatorsArg A → List A
  | .one f => [f]
  | .many fs => fs

/-- Class `FormField<R>`: a stored value and its validator list. -/
structure FormField (V F : Type) where
  value : V
  validators : List F
deriving DecidableEq, Repr

/-- The `FormField` constructor, normalizing its second argument. -/
def FormField.make {V F : Type} (value : V) (arg : ValidatorsArg F) : FormField V F :=
  ⟨value, normalizeValidators arg⟩

/-- Method `FormField.validate`:
`this.validators.reduce((acc, validator) => acc.chain(validator), right(this.value))`. -/
def FormField.validate {V F : Type} (evF : F → V → Except FailedMessage V)
    (f : FormField V F) : Except FailedMessage V :=
  f.validators.foldl (fun acc v => acc.bind (evF v)) (.ok f.value)

/-- Method `FormField.setNewValue`: `new FormField(newValue, this.validators)`. -/
def FormField.setNewValue {V F : Type} (f : FormField V F) (newValue : V) : FormField V F :=
  ⟨newValue, f.validators⟩

/-- A tree node: either a `FormField` leaf or a `FormFieldGroup` with its
fields record (in insertion order) and its group validators. -/
inductive Node (V F G : Type) where
  | leaf : FormField V F → Node V F G
  | group : List (String × Node V F G) → List G → Node V F G
deriving Repr

/-- The `FormFieldGroup` constructor, normalizing its validator argument. -/
def FormFieldGroup.make {V F G : Type} (fields : List (String × Node V F G))
    (arg : ValidatorsArg G) : Node V F G :=
  .group fields (normalizeValidators arg)

/-- Class `Form<T>`: the root fields record and the form-level validators. -/
structure Form (V F G : Type) where
  fields : List (String × Node V F G)
  formValidators : List G

/-- The `Form` constructor, normalizing its validator argument. -/
def Form.make {V F G : Type} (fields : List (String × Node V F G))
    (arg : ValidatorsArg G) : Form V F G :=
  ⟨fields, normalizeValidators arg⟩

/-- JS membership-plus-read `head in obj … obj[head]`: first binding of a key
in the record. -/
def lookupKey {α : Type} : List (String × α) → String → Option α
  | [], _ => none
  | (k, x) :: rest, key => if k = key then some x else lookupKey rest key

/-- JS spread update `{ ...obj, [key]: v }` for a key already present: the
binding keeps its original position; absent keys leave the record unchanged
(the source always checks `head in obj` before updating). -/
def setKey {α : Type} : List (String × α) → String → α → List (String × α)
  | [], _, _ => []
  | (k, x) :: rest, key, v => if k = key then (key, v) :: rest else (k, x) :: setKey rest key v

mutual

/-- Dispatch `field instanceof FormField ? field.validate() : field.validateGroup()`
with the success value discarded (the caller maps it to its own fields). -/
def validateNode {V F G : Type} (evF : F → V → Except FailedMessage V)
    (evG : G → List (String × Node V F G) → Except FailedMessage (List (String × Node V F G))) :
    Node V F G → Except FailedMessage Unit
  | .leaf f => (f.validate evF).map fun _ => ()
  | .group fs gvs => (validateGroupFields evF evG fs gvs).map fun _ => ()

/-- The child phase of `validateGroup`/`validateForm`:
`Object.values(this.fields).reduce((acc, field) => acc.chain(() => …), right(this.fields))`.
`chain` on a left is the identity, so the reduce validates children in
declaration order and stops at the first failure. -/
def childPhase {V F G : Type} (evF : F → V → Except FailedMessage V)
    (evG : G → List (String × Node V F G) → Except FailedMessage (List (String × Node V F G))) :
    List (String × Node V F G) → Except FailedMessage Unit
  | [] => .ok ()
  | (_, n) :: rest => (validateNode evF evG n).bind fun _ => childPhase evF evG rest

/-- Method `FormFieldGroup.validateGroup` on a group's fields and validators:
both reduces are evaluated, then `fieldValidationResults.chain(() => groupValidationResult)`. -/
def validateGroupFields {V F G : Type} (evF : F → V → Except FailedMessage V)
    (evG : G → List (String × Node V F G) → Except FailedMessage (List (String × Node V F G)))
    (fields : List (String × Node V F G)) (groupValidators : List G) :
    Except FailedMessage (List (String × Node V F G)) :=
  let fieldValidationResults : Except FailedMessage (List (String × Node V F G)) :=
    (childPhase evF evG fields).map fun _ => fields
  let groupValidationResult : Except FailedMessage (List (String × Node V F G)) :=
    groupValidators.foldl (fun acc v => acc.bind fun _ => evG v fields) (.ok fields)
  fieldValidationResults.bind fun _ => groupValidationResult

end

/-- Method `Form.validateForm`: textually the same two reduces as
`validateGroup`, over the form's fields and `formValidators`. -/
def Form.validateForm {V F G : Type} (evF : F → V → Except FailedMessage V)
    (evG : G → List (String × Node V F G) → Except FailedMessage (List (String × Node V F G)))
    (f : Form V F G) : Except FailedMessage (List (String × Node V F G)) :=
  let fieldValidationResults : Except FailedMessage (List (String × Node V F G)) :=
    (childPhase evF evG f.fields).map fun _ => f.fields
  let formValidationResult : Except FailedMessage (List (String × Node V F G)) :=
    f.formValidators.foldl (fun acc v => acc.bind fun _ => evG v f.fields) (.ok f.fields)
  fieldValidationResults.bind fun _ => formValidationResult

/-!
## Instrumented semantics

The spec demands invocation guarantees ("validators … must not be invoked
after the first failure", "group-level and form-level validators are never
invoked").  JavaScript evaluates eagerly: inside one `reduce`,
`acc.chain(cb)` calls `cb` only when `acc` is a right, but the whole
`groupValidationResult` reduce is evaluated before
`fieldValidationResults.chain(() => groupValidationResult)` looks at the
child-phase outcome.  The traced semantics below mirrors exactly that
evaluation order and records every validator invocation.
-/

/-- A recorded validator invocation: a leaf validator code or a group/form
validator code. -/
inductive TraceEv (F G : Type) where
  | leafV : F → TraceEv F G
  | groupV : G → TraceEv F G
deriving DecidableEq, Repr

/-- The arrow function of the traced `FormField.validate` reduce:
`acc.chain(validator)` invokes the validator only when `acc` is a right, and
the log records the invocation. -/
def chainStepT {V F : Type} (evF : F → V → Except FailedMessage V) :
    Except FailedMessage V × List F → F → Except FailedMessage V × List F
  | (.error e, log), _ => (.error e, log)
  | (.ok w, log), v => (evF v w, log ++ [v])

/-- Traced `FormField.validate` chain: same reduce, logging each validator the
`chain` actually calls. -/
def runChainT {V F : Type} (evF : F → V → Except FailedMessage V)
    (validators : List F) (value : V) : Except FailedMessage V × List F :=
  validators.foldl (chainStepT evF) (.ok value, [])

/-- The arrow function of the traced group/form validator reduce:
`acc.chain(() => validator(this.fields))` applies the validator to the fixed
fields record only when `acc` is a right, logging the invocation. -/
def groupStepT {V F G : Type}
    (evG : G → List (String × Node V F G) → Except FailedMessage (List (String × Node V F G)))
    (fields : List (String × Node V F G)) :
    Except FailedMessage (List (String × Node V F G)) × List (TraceEv F G) → G →
    Except FailedMessage (List (String × Node V F G)) × List (TraceEv F G)
  | (.error e, log), _ => (.error e, log)
  | (.ok _, log), v => (evG v fields, log ++ [.groupV v])

/-- Traced group/form validator reduce
`groupValidators.reduce((acc, validator) => acc.chain(() => validator(this.fields)), right(this.fields))`,
logging each validator the `chain` actually calls. -/
def groupChainT {V F G : Type}
    (evG : G → List (String × Node V F G) → Except FailedMessage (List (String × Node V F G)))
    (groupValidators : List G) (fields : List (String × Node V F G)) :
    Except FailedMessage (List (String × Node V F G)) × List (TraceEv F G) :=
  groupValidators.foldl (groupStepT evG fields) (.ok fields, [])

mutual

/-- Traced `instanceof` dispatch of the child phase. -/
def validateNodeT {V F G : Type} (evF : F → V → Except FailedMessage V)
    (evG : G → List (String × Node V F G) → Except FailedMessage (List (String × Node V F G))) :
    Node V F G → Except FailedMessage Unit × List (TraceEv F G)
  | .leaf f =>
    match runChainT evF f.validators f.value with
    | (r, log) => (r.map fun _ => (), log.map .leafV)
  | .group fs gvs =>
    match validateGroupFieldsT evF evG fs gvs with
    | (r, log) => (r.map fun _ => (), log)

/-- Traced child phase: children in declaration order, stopping at the first
failure (a left `acc` makes `chain` skip the remaining children). -/
def childPhaseT {V F G : Type} (evF : F → V → Except FailedMessage V)
    (evG : G → List (String × Node V F G) → Except FailedMessage (List (String × Node V F G))) :
    List (String × Node V F G) → Except FailedMessage Unit × List (TraceEv F G)
  | [] => (.ok (), [])
  | (_, n) :: rest =>
    match validateNodeT evF evG n with
    | (.error e, log) => (.error e, log)
    | (.ok _, log) =>
      match childPhaseT evF evG rest with
      | (r, log2) => (r, log ++ log2)

/-- Traced `validateGroup`: the child-phase reduce runs first, the group
validator reduce runs next (eagerly, whatever the child phase produced), and
only then does `fieldValidationResults.chain(() => groupValidationResult)`
combine the two results. -/
def validateGroupFieldsT {V F G : Type} (evF : F → V → Except FailedMessage V)
    (evG : G → List (String × Node V F G) → Except FailedMessage (List (String × Node V F G)))
    (fields : List (String × Node V F G)) (groupValidators : List G) :
    Except FailedMessage (List (String × Node V F G)) × List (TraceEv F G) :=
  match childPhaseT evF evG fields with
  | (fr, flog) =>
    match groupChainT evG groupValidators fields with
    | (gr, glog) => ((fr.map fun _ => fields).bind fun _ => gr, flog ++ glog)

end

/-- Traced `Form.validateForm`, same shape as the traced `validateGroup` over
the form's fields and `formValidators`. -/
def Form.validateFormT {V F G : Type} (evF : F → V → Except FailedMessage V)
    (evG : G → List (String × Node V F G) → Except FailedMessage (List (String × Node V F G)))
    (f : Form V F G) : Except FailedMessage (List (String × Node V F G)) × List (TraceEv F G) :=
  match childPhaseT evF evG f.fields with
  | (fr, flog) =>
    match groupChainT evG f.formValidators f.fields with
    | (gr, glog) => ((fr.map fun _ => f.fields).bind fun _ => gr, flog ++ glog)

/-!
## Path engine

`setValueByPath` / `getValueByPath` split the path string on `.` and walk the
fields record.  `updateNestedFieldTyped` throws (`Except String` here) on a
missing key, on an empty segment array, and on traversal into a `FormField`.
`getNestedValue` is untyped in the source (`obj: Record<string, any>`): when a
key is missing it recurses on `undefined`, which yields the JS value
`undefined` if no segments remain and a `TypeError` (reading a property of
`undefined`) otherwise.  `GetRes` enumerates exactly those outcomes.
-/

/-- Outcome of `getNestedValue`: a leaf value, a full fields record, the JS
value `undefined`, a thrown `Error` with its message, or a thrown `TypeError`
from reading a property of `undefined`. -/
inductive GetRes (V F G : Type) where
  | value : V → GetRes V F G
  | tree : List (String × Node V F G) → GetRes V F G
  | undef : GetRes V F G
  | thrown : String → GetRes V F G
  | typeError : GetRes V F G
deriving Repr

/-- Method `Form.getNestedValue`.  The first argument is the current `obj`,
which is `undefined` (`none`) after the source recursed through a missing key. -/
def getNestedValue {V F G : Type} :
    Option (List (String × Node V F G)) → List String → GetRes V F G
  | none, [] => .undef
  | none, _ :: _ => .typeError
  | some obj, [] => .tree obj
  | some obj, head :: tail =>
    match lookupKey obj head with
    | some (.leaf f) =>
      if tail.isEmpty then .value f.value
      else .thrown ("Cannot traverse deeper into FormField at " ++ head)
    | some (.group fs _) => getNestedValue (some fs) tail
    | none => getNestedValue none tail

/-- JS `path.split('.')` for the one-character separator `.`: splits at every
occurrence, so `''.split('.')` is `['']` and `'a..b'.split('.')` is
`['a', '', 'b']`, exactly the behaviour of `List.splitOn` on the characters. -/
def splitPath (path : String) : List String :=
  (path.data.splitOn '.').map List.asString

/-- Method `Form.getValueByPath`: `this.getNestedValue(this.fields, path.split('.'))`. -/
def Form.getValueByPath {V F G : Type} (f : Form V F G) (path : String) : GetRes V F G :=
  getNestedValue (some f.fields) (splitPath path)

/-- Method `Form.updateNestedFieldTyped`.  Thrown errors are the `.error`
branch carrying the thrown message.  The source's final
`Unsupported field type` throw is unreachable here: the typed record holds
only `FormField` and `FormFieldGroup` nodes. -/
def updateNestedFieldTyped {V F G : Type} :
    List (String × Node V F G) → List String → V →
    Except String (List (String × Node V F G))
  | _, [], _ => .error "Invalid path: cannot replace entire object"
  | obj, head :: tail, newValue =>
    match lookupKey obj head with
    | none => .error ("Invalid path: key '" ++ head ++ "' not found")
    | some (.leaf f) =>
      if tail.isEmpty then .ok (setKey obj head (.leaf (f.setNewValue newValue)))
      else .error ("Cannot traverse deeper into FormField at " ++ head)
    | some (.group fs gvs) =>
      (updateNestedFieldTyped fs tail newValue).map fun updated =>
        setKey obj head (.group updated gvs)

/-- Method `Form.setValueByPath`: split, update, rebuild
`new Form(updatedFields, this.formValidators)`. -/
def Form.setValueByPath {V F G : Type} (f : Form V F G) (path : String) (newValue : V) :
    Except String (Form V F G) :=
  (updateNestedFieldTyped f.fields (splitPath path) newValue).map fun updatedFields =>
    ⟨updatedFields, f.formValidators⟩

/-!
## Path predicates and path observations

These are specification-side notions used to state theorems: validity of a
path to a leaf, presence of a missing segment, divergence of two paths, and
the validator lists observable at a path.
-/

/-- The segment list addresses a `FormField`: every proper prefix resolves to
a group, the final segment to a leaf. -/
def isValidLeafPath {V F G : Type} : List (String × Node V F G) → List String → Bool
  | _, [] => false
  | obj, [head] =>
    match lookupKey obj head with
    | some (.leaf _) => true
    | _ => false
  | obj, head :: tail =>
    match lookupKey obj head with
    | some (.group fs _) => isValidLeafPath fs tail
    | _ => false

/-- Traversal of the segment list reaches a segment absent from the record at
its level (possibly after descending through groups). -/
def missesKey {V F G : Type} : List (String × Node V F G) → List String → Bool
  | _, [] => false
  | obj, head :: tail =>
    match lookupKey obj head with
    | none => true
    | some (.group fs _) => missesKey fs tail
    | some (.leaf _) => false

/-- Two segment lists diverge: they differ at some index that both have, so
neither is a prefix of the other. -/
def diverges : List String → List String → Bool
  | [], _ => false
  | _, [] => false
  | a :: as_, b :: bs => if a = b then diverges as_ bs else true

/-- The validator list of the leaf at a path, when the path addresses a leaf. -/
def leafValidatorsAt {V F G : Type} : List (String × Node V F G) → List String → Option (List F)
  | _, [] => none
  | obj, [head] =>
    match lookupKey obj head with
    | some (.leaf f) => some f.validators
    | _ => none
  | obj, head :: tail =>
    match lookupKey obj head with
    | some (.group fs _) => leafValidatorsAt fs tail
    | _ => none

/-- The group-validator list of the group at a path, when the path addresses a
group ([] addresses no group: the root's validators live on the `Form`). -/
def groupValidatorsAt {V F G : Type} : List (String × Node V F G) → List String → Option (List G)
  | _, [] => none
  | obj, [head] =>
    match lookupKey obj head with
    | some (.group _ gvs) => some gvs
    | _ => none
  | obj, head :: tail =>
    match lookupKey obj head with
    | some (.group fs _) => groupValidatorsAt fs tail
    | _ => none

/-!
## Concrete validator codes and example trees

Small closed instances used to evaluate the semantics at concrete inputs:
leaf-validator codes over `String` values and group-validator codes, with
their interpreters, plus example forms mirroring the repository's README and
tests.
-/

/-- A concrete leaf-validator code: succeed with the value, or fail with a
fixed message. -/
inductive LCode where
  | pass : LCode
  | failMsg : String → LCode
deriving DecidableEq, Repr

/-- Interpreter for `LCode` over `String` values. -/
def evalLCode : LCode → String → Except FailedMessage String
  | .pass, v => .ok v
  | .failMsg m, _ => .error ⟨m⟩

/-- A concrete group/form-validator code: succeed with the fields, or fail
with a fixed message. -/
inductive GCode where
  | gpass : GCode
  | gfail : String → GCode
deriving DecidableEq, Repr

/-- Interpreter for `GCode` over `String`-valued trees. -/
def evalGCode : GCode → List (String × Node String LCode GCode) →
    Except FailedMessage (List (String × Node String LCode GCode))
  | .gpass, fs => .ok fs
  | .gfail m, _ => .error ⟨m⟩

/-- A group record with one failing leaf child. -/
def exFields : List (String × Node String LCode GCode) :=
  [("a", .leaf ⟨"x", [.failMsg "child failed"]⟩)]

/-- A form shaped like the source's usage example: a top-level leaf and a
nested group with two leaves, with group and form validators present. -/
def exForm : Form String LCode GCode :=
  ⟨[("name", .leaf ⟨"John", [.pass]⟩),
    ("address", .group
      [("street", .leaf ⟨"123 Main St", []⟩),
       ("city", .leaf ⟨"New York", []⟩)]
      [GCode.gpass])],
   [GCode.gpass]⟩

/-- Two sibling leaves that both fail validation, in declaration order. -/
def exBothFail : List (String × Node String LCode GCode) :=
  [("a", .leaf ⟨"x", [.failMsg "error a"]⟩),
   ("b", .leaf ⟨"y", [.failMsg "error b"]⟩)]


/-- The record of `exForm` after writing `"456 Oak Ave"` at `address.street`:
the sibling leaf, the sibling group entries and every validator list are the
same, only the one leaf value changed. -/
def exFormUpdated : Form String LCode GCode :=
  ⟨[("name", .leaf ⟨"John", [.pass]⟩),
    ("address", .group
      [("street", .leaf ⟨"456 Oak Ave", []⟩),
       ("city", .leaf ⟨"New York", []⟩)]
      [GCode.gpass])],
   [GCode.gpass]⟩

/-!
## Helper lemmas
-/

/-- A left accumulator absorbs the rest of the `FormField.validate` reduce. -/
theorem foldl_chain_error {V F : Type} (evF : F → V → Except FailedMessage V)
    (vs : List F) (e : FailedMessage) :
    vs.foldl (fun acc v => acc.bind (evF v)) (Except.error e : Except FailedMessage V) =
      .error e := by
  induction vs with
  | nil => rfl
  | cons f rest ih => exact ih

/-- One step of `FormField.validate`: the first validator receives the stored
value, the rest of the chain receives the first validator's output. -/
theorem validate_cons {V F : Type} (evF : F → V → Except FailedMessage V)
    (f : F) (rest : List F) (v : V) :
    FormField.validate evF ⟨v, f :: rest⟩ =
      (evF f v).bind fun w => FormField.validate evF ⟨w, rest⟩ := by
  have hstep : FormField.validate evF ⟨v, f :: rest⟩ =
      rest.foldl (fun acc v => acc.bind (evF v)) (evF f v) := rfl
  cases h : evF f v with
  | error e =>
    rw [hstep, h, foldl_chain_error]
    rfl
  | ok w =>
    rw [hstep, h]
    rfl

/-- A left accumulator absorbs the rest of the traced leaf-validator reduce:
no further validator is invoked and the log stays as it is. -/
theorem chainStepT_foldl_error {V F : Type} (evF : F → V → Except FailedMessage V)
    (vs : List F) (e : FailedMessage) (log : List F) :
    vs.foldl (chainStepT evF) (.error e, log) = (.error e, log) := by
  induction vs with
  | nil => rfl
  | cons f rest ih => rw [List.foldl_cons, chainStepT]; exact ih

/-- The traced leaf-validator reduce from a right accumulator is a fresh
`runChainT` with the accumulated log prepended. -/
theorem chainStepT_foldl_ok {V F : Type} (evF : F → V → Except FailedMessage V)
    (vs : List F) (w : V) (log : List F) :
    vs.foldl (chainStepT evF) (.ok w, log) =
      ((runChainT evF vs w).1, log ++ (runChainT evF vs w).2) := by
  induction vs generalizing w log with
  | nil => simp [runChainT]
  | cons f rest ih =>
    rw [List.foldl_cons, chainStepT]
    have hrc : runChainT evF (f :: rest) w = rest.foldl (chainStepT evF) (evF f w, [f]) := by
      rw [runChainT, List.foldl_cons, chainStepT]
      simp only [List.nil_append]
    cases hf : evF f w with
    | error e =>
      rw [chainStepT_foldl_error]
      rw [hrc, hf, chainStepT_foldl_error]
    | ok w2 =>
      rw [ih]
      rw [hrc, hf, ih]
      simp

/-- Recursive characterization of the traced leaf chain: the first validator
receives the stored value; if it fails, the chain returns that failure and the
log shows no later validator was invoked; if it succeeds, the rest of the
chain receives its output value. -/
theorem runChainT_cons {V F : Type} (evF : F → V → Except FailedMessage V)
    (f : F) (rest : List F) (v : V) :
    runChainT evF (f :: rest) v =
      (match evF f v with
       | .error e => (.error e, [f])
       | .ok w => ((runChainT evF rest w).1, f :: (runChainT evF rest w).2)) := by
  rw [runChainT, List.foldl_cons, chainStepT]
  simp only [List.nil_append]
  cases hf : evF f v with
  | error e => rw [chainStepT_foldl_error]
  | ok w => rw [chainStepT_foldl_ok]; rfl

/-- The traced leaf chain computes the same result as `FormField.validate`. -/
theorem runChainT_fst {V F : Type} (evF : F → V → Except FailedMessage V)
    (vs : List F) (v : V) :
    (runChainT evF vs v).1 = FormField.validate evF ⟨v, vs⟩ := by
  induction vs generalizing v with
  | nil => rfl
  | cons f rest ih =>
    rw [runChainT_cons, validate_cons]
    cases hf : evF f v with
    | error e => rfl
    | ok w => rw [show (Except.ok w).bind (fun w => FormField.validate evF ⟨w, rest⟩) = FormField.validate evF ⟨w, rest⟩ from rfl, ← ih]

/-- A left accumulator absorbs the rest of the traced group-validator reduce. -/
theorem groupStepT_foldl_error {V F G : Type}
    (evG : G → List (String × Node V F G) → Except FailedMessage (List (String × Node V F G)))
    (fields : List (String × Node V F G)) (gvs : List G) (e : FailedMessage)
    (log : List (TraceEv F G)) :
    gvs.foldl (groupStepT evG fields) (.error e, log) = (.error e, log) := by
  induction gvs with
  | nil => rfl
  | cons g rest ih => rw [List.foldl_cons, groupStepT]; exact ih

/-- The traced group-validator reduce only ever appends to its log. -/
theorem groupStepT_foldl_log {V F G : Type}
    (evG : G → List (String × Node V F G) → Except FailedMessage (List (String × Node V F G)))
    (fields : List (String × Node V F G)) (gvs : List G)
    (acc : Except FailedMessage (List (String × Node V F G))) (log : List (TraceEv F G)) :
    ∃ tr, (gvs.foldl (groupStepT evG fields) (acc, log)).2 = log ++ tr := by
  induction gvs generalizing acc log with
  | nil => exact ⟨[], by simp⟩
  | cons g rest ih =>
    rw [List.foldl_cons]
    cases acc with
    | error e => rw [groupStepT]; exact ih _ _
    | ok x =>
      rw [groupStepT]
      obtain ⟨tr, htr⟩ := ih (evG g fields) (log ++ [.groupV g])
      exact ⟨[.groupV g] ++ tr, by rw [htr]; simp⟩

/-- With at least one group validator, the first one is always invoked: the
trace of the group-validator reduce starts with it. -/
theorem groupChainT_cons_log {V F G : Type}
    (evG : G → List (String × Node V F G) → Except FailedMessage (List (String × Node V F G)))
    (fields : List (String × Node V F G)) (g : G) (rest : List G) :
    ∃ tr, (groupChainT evG (g :: rest) fields).2 = .groupV g :: tr := by
  rw [groupChainT, List.foldl_cons, groupStepT]
  simp only [List.nil_append]
  obtain ⟨tr, htr⟩ := groupStepT_foldl_log evG fields rest (evG g fields) [.groupV g]
  exact ⟨tr, by rw [htr]; rfl⟩

/-- After a spread update of an existing key, looking up that key finds the
new node. -/
theorem lookupKey_setKey_self {α : Type} (obj : List (String × α)) (k : String)
    (n0 n : α) (h : lookupKey obj k = some n0) :
    lookupKey (setKey obj k n) k = some n := by
  induction obj with
  | nil => simp [lookupKey] at h
  | cons p rest ih =>
    obtain ⟨k1, x1⟩ := p
    by_cases hk : k1 = k
    · subst hk
      simp [setKey, lookupKey]
    · rw [lookupKey, if_neg hk] at h
      rw [setKey, if_neg hk, lookupKey, if_neg hk]
      exact ih h

/-- A spread update of one key leaves the lookup of every other key unchanged. -/
theorem lookupKey_setKey_ne {α : Type} (obj : List (String × α)) (k k2 : String)
    (n : α) (hne : k2 ≠ k) :
    lookupKey (setKey obj k n) k2 = lookupKey obj k2 := by
  induction obj with
  | nil => rfl
  | cons p rest ih =>
    obtain ⟨k1, x1⟩ := p
    by_cases hk : k1 = k
    · subst hk
      rw [setKey, if_pos rfl, lookupKey, lookupKey, if_neg (fun h => hne h.symm)]
      by_cases hk2 : k1 = k2
      · exact absurd hk2.symm (by simpa using hne)
      · rw [if_neg hk2]
    · rw [setKey, if_neg hk, lookupKey, lookupKey]
      by_cases hk2 : k1 = k2
      · rw [if_pos hk2, if_pos hk2]
      · rw [if_neg hk2, if_neg hk2]
        exact ih

/-- Writing back the node a key already holds leaves the record unchanged. -/
theorem setKey_self {α : Type} (obj : List (String × α)) (k : String) (n : α)
    (h : lookupKey obj k = some n) : setKey obj k n = obj := by
  induction obj with
  | nil => rfl
  | cons p rest ih =>
    obtain ⟨k1, x1⟩ := p
    by_cases hk : k1 = k
    · subst hk
      rw [lookupKey, if_pos rfl] at h
      rw [setKey, if_pos rfl]
      cases h
      rfl
    · rw [lookupKey, if_neg hk] at h
      rw [setKey, if_neg hk, ih h]

/-- Core of write-then-read: updating a valid leaf path succeeds, and reading
the same path from the updated record returns the written value. -/
theorem updateNested_get {V F G : Type} :
    ∀ (p : List String) (obj : List (String × Node V F G)),
      isValidLeafPath obj p = true → ∀ v : V,
      ∃ obj2, updateNestedFieldTyped obj p v = .ok obj2 ∧
        getNestedValue (some obj2) p = .value v := by
  intro p
  induction p with
  | nil => intro obj h _; simp [isValidLeafPath] at h
  | cons head tail ih =>
    intro obj h v
    cases tail with
    | nil =>
      cases hl : lookupKey obj head with
      | none => simp [isValidLeafPath, hl] at h
      | some n =>
        cases n with
        | leaf f =>
          refine ⟨setKey obj head (.leaf (f.setNewValue v)), ?_, ?_⟩
          · simp [updateNestedFieldTyped, hl]
          · rw [getNestedValue, lookupKey_setKey_self obj head _ _ hl]
            simp [FormField.setNewValue]
        | group fs gvs => simp [isValidLeafPath, hl] at h
    | cons t2 trest =>
      cases hl : lookupKey obj head with
      | none => simp [isValidLeafPath, hl] at h
      | some n =>
        cases n with
        | leaf f => simp [isValidLeafPath, hl] at h
        | group fs gvs =>
          simp only [isValidLeafPath, hl] at h
          obtain ⟨fs2, hup, hget⟩ := ih fs h v
          refine ⟨setKey obj head (.group fs2 gvs), ?_, ?_⟩
          · rw [updateNestedFieldTyped, hl]
            show (updateNestedFieldTyped fs (t2 :: trest) v).map
              (fun updated => setKey obj head (Node.group updated gvs)) =
              Except.ok (setKey obj head (Node.group fs2 gvs))
            rw [hup]
            rfl
          · rw [getNestedValue, lookupKey_setKey_self obj head _ _ hl]
            exact hget

/-- Reading one level only depends on the record through the lookup of the
head segment. -/
theorem getNestedValue_cons_congr {V F G : Type}
    (obj1 obj : List (String × Node V F G)) (b : String) (bs : List String)
    (h : lookupKey obj1 b = lookupKey obj b) :
    getNestedValue (some obj1) (b :: bs) = getNestedValue (some obj) (b :: bs) := by
  rw [getNestedValue, getNestedValue, h]

/-- Core of sibling isolation: a successful update along `p` does not change
the value read at any path `q` that diverges from `p`. -/
theorem updateNested_divergent {V F G : Type} :
    ∀ (p : List String) (obj obj2 : List (String × Node V F G)) (v : V) (q : List String),
      diverges p q = true → updateNestedFieldTyped obj p v = .ok obj2 →
      getNestedValue (some obj2) q = getNestedValue (some obj) q := by
  intro p
  induction p with
  | nil =>
    intro obj obj2 v q hdiv hup
    exact absurd hup (by rw [updateNestedFieldTyped]; simp)
  | cons head tail ih =>
    intro obj obj2 v q hdiv hup
    cases q with
    | nil => simp [diverges] at hdiv
    | cons b bs =>
      cases hl : lookupKey obj head with
      | none =>
        simp only [updateNestedFieldTyped, hl] at hup
        exact absurd hup (by simp)
      | some n =>
        cases n with
        | leaf f =>
          simp only [updateNestedFieldTyped, hl] at hup
          by_cases ht : tail.isEmpty
          · rw [if_pos (by simpa using ht)] at hup
            have hobj2 : setKey obj head (.leaf (f.setNewValue v)) = obj2 := by
              simpa using hup
            subst hobj2
            have hb : head ≠ b := by
              rw [diverges] at hdiv
              by_cases hhb : head = b
              · subst hhb
                rw [if_pos rfl] at hdiv
                cases tail with
                | nil => simp [diverges] at hdiv
                | cons x xs => simp at ht
              · exact hhb
            exact getNestedValue_cons_congr _ _ _ _
              (lookupKey_setKey_ne obj head b _ (fun hh => hb hh.symm))
          · rw [if_neg (by simpa using ht)] at hup
            exact absurd hup (by simp)
        | group fs gvs =>
          simp only [updateNestedFieldTyped, hl] at hup
          cases hInner : updateNestedFieldTyped fs tail v with
          | error e =>
            rw [hInner] at hup
            exact absurd hup (by simp [Except.map])
          | ok fs2 =>
            rw [hInner] at hup
            have hobj2 : setKey obj head (.group fs2 gvs) = obj2 := by
              simpa [Except.map] using hup
            subst hobj2
            by_cases hhb : head = b
            · subst hhb
              have hdiv2 : diverges tail bs = true := by
                rw [diverges, if_pos rfl] at hdiv
                exact hdiv
              rw [getNestedValue, getNestedValue,
                lookupKey_setKey_self obj head _ _ hl, hl]
              exact ih fs fs2 v bs hdiv2 hInner
            · exact getNestedValue_cons_congr _ _ _ _
                (lookupKey_setKey_ne obj head b _ (fun hh => hhb hh.symm))

/-- Core of the round-trip law: writing back the value that a valid leaf path
currently holds rebuilds the record identically. -/
theorem updateNested_roundtrip {V F G : Type} :
    ∀ (p : List String) (obj : List (String × Node V F G)) (w : V),
      isValidLeafPath obj p = true → getNestedValue (some obj) p = .value w →
      updateNestedFieldTyped obj p w = .ok obj := by
  intro p
  induction p with
  | nil => intro obj w h _; simp [isValidLeafPath] at h
  | cons head tail ih =>
    intro obj w h hget
    cases tail with
    | nil =>
      cases hl : lookupKey obj head with
      | none => simp [isValidLeafPath, hl] at h
      | some n =>
        cases n with
        | leaf f =>
          have hw : f.value = w := by
            simpa [getNestedValue, hl] using hget
          have hf : f.setNewValue w = f := by
            rw [FormField.setNewValue, ← hw]
          rw [updateNestedFieldTyped, hl]
          simp only [List.isEmpty_nil, if_pos rfl, hf]
          rw [setKey_self obj head _ hl]
          simp
        | group fs gvs => simp [isValidLeafPath, hl] at h
    | cons t2 trest =>
      cases hl : lookupKey obj head with
      | none => simp [isValidLeafPath, hl] at h
      | some n =>
        cases n with
        | leaf f => simp [isValidLeafPath, hl] at h
        | group fs gvs =>
          simp only [isValidLeafPath, hl] at h
          have hget2 : getNestedValue (some fs) (t2 :: trest) = .value w := by
            simpa [getNestedValue, hl] using hget
          have hrec := ih fs w h hget2
          rw [updateNestedFieldTyped, hl]
          show (updateNestedFieldTyped fs (t2 :: trest) w).map
            (fun updated => setKey obj head (Node.group updated gvs)) = Except.ok obj
          rw [hrec]
          show Except.ok (setKey obj head (Node.group fs gvs)) = Except.ok obj
          rw [setKey_self obj head _ hl]

/-- A path that reaches a missing segment makes `updateNestedFieldTyped` throw
the key-not-found error for that segment. -/
theorem updateNested_missing {V F G : Type} :
    ∀ (p : List String) (obj : List (String × Node V F G)) (v : V),
      missesKey obj p = true →
      ∃ k, updateNestedFieldTyped obj p v =
        .error ("Invalid path: key '" ++ k ++ "' not found") := by
  intro p
  induction p with
  | nil => intro obj v h; simp [missesKey] at h
  | cons head tail ih =>
    intro obj v h
    cases hl : lookupKey obj head with
    | none =>
      refine ⟨head, ?_⟩
      rw [updateNestedFieldTyped, hl]
    | some n =>
      cases n with
      | leaf f => simp [missesKey, hl] at h
      | group fs gvs =>
        simp only [missesKey, hl] at h
        obtain ⟨k, hk⟩ := ih fs v h
        refine ⟨k, ?_⟩
        rw [updateNestedFieldTyped, hl]
        show (updateNestedFieldTyped fs tail v).map
          (fun updated => setKey obj head (Node.group updated gvs)) = _
        rw [hk]
        rfl

/-- A path that reaches a missing segment makes `getNestedValue` return the
JS value `undefined` (missing final segment) or throw a `TypeError` (missing
non-final segment) — never a key-not-found error. -/
theorem getNested_missing {V F G : Type} :
    ∀ (p : List String) (obj : List (String × Node V F G)),
      missesKey obj p = true →
      getNestedValue (some obj) p = .undef ∨ getNestedValue (some obj) p = .typeError := by
  intro p
  induction p with
  | nil => intro obj h; simp [missesKey] at h
  | cons head tail ih =>
    intro obj h
    cases hl : lookupKey obj head with
    | none =>
      rw [getNestedValue, hl]
      cases tail with
      | nil => exact Or.inl rfl
      | cons t2 trest => exact Or.inr rfl
    | some n =>
      cases n with
      | leaf f => simp [missesKey, hl] at h
      | group fs gvs =>
        simp only [missesKey, hl] at h
        rw [getNestedValue, hl]
        exact ih fs h

/-- The leaf validators observed at one level only depend on the record
through the lookup of the head segment. -/
theorem leafValidatorsAt_congr {V F G : Type}
    (obj1 obj : List (String × Node V F G)) (b : String) (bs : List String)
    (h : lookupKey obj1 b = lookupKey obj b) :
    leafValidatorsAt obj1 (b :: bs) = leafValidatorsAt obj (b :: bs) := by
  cases bs with
  | nil => simp only [leafValidatorsAt, h]
  | cons x xs => simp only [leafValidatorsAt, h]

/-- The group validators observed at one level only depend on the record
through the lookup of the head segment. -/
theorem groupValidatorsAt_congr {V F G : Type}
    (obj1 obj : List (String × Node V F G)) (b : String) (bs : List String)
    (h : lookupKey obj1 b = lookupKey obj b) :
    groupValidatorsAt obj1 (b :: bs) = groupValidatorsAt obj (b :: bs) := by
  cases bs with
  | nil => simp only [groupValidatorsAt, h]
  | cons x xs => simp only [groupValidatorsAt, h]

/-- Core of validator preservation: a successful update changes no leaf
validator list and no group validator list anywhere in the tree. -/
theorem updateNested_validators {V F G : Type} :
    ∀ (p : List String) (obj obj2 : List (String × Node V F G)) (v : V),
      updateNestedFieldTyped obj p v = .ok obj2 →
      ∀ q, leafValidatorsAt obj2 q = leafValidatorsAt obj q ∧
        groupValidatorsAt obj2 q = groupValidatorsAt obj q := by
  intro p
  induction p with
  | nil =>
    intro obj obj2 v hup
    exact absurd hup (by rw [updateNestedFieldTyped]; simp)
  | cons head tail ih =>
    intro obj obj2 v hup q
    cases hl : lookupKey obj head with
    | none =>
      simp only [updateNestedFieldTyped, hl] at hup
      exact absurd hup (by simp)
    | some n =>
      cases n with
      | leaf f =>
        simp only [updateNestedFieldTyped, hl] at hup
        by_cases ht : tail.isEmpty
        · rw [if_pos (by simpa using ht)] at hup
          have hobj2 : setKey obj head (.leaf (f.setNewValue v)) = obj2 := by
            simpa using hup
          subst hobj2
          cases q with
          | nil => exact ⟨rfl, rfl⟩
          | cons b bs =>
            by_cases hhb : head = b
            · subst hhb
              have hl2 : lookupKey (setKey obj head (.leaf (f.setNewValue v))) head =
                  some (.leaf (f.setNewValue v)) :=
                lookupKey_setKey_self obj head _ _ hl
              cases bs with
              | nil =>
                constructor
                · simp only [leafValidatorsAt, hl2, hl]
                  simp [FormField.setNewValue]
                · simp only [groupValidatorsAt, hl2, hl]
              | cons x xs =>
                constructor
                · simp only [leafValidatorsAt, hl2, hl]
                · simp only [groupValidatorsAt, hl2, hl]
            · have hlk := lookupKey_setKey_ne obj head b
                (Node.leaf (f.setNewValue v) : Node V F G) (fun hh => hhb hh.symm)
              exact ⟨leafValidatorsAt_congr _ _ _ _ hlk, groupValidatorsAt_congr _ _ _ _ hlk⟩
        · rw [if_neg (by simpa using ht)] at hup
          exact absurd hup (by simp)
      | group fs gvs =>
        simp only [updateNestedFieldTyped, hl] at hup
        cases hInner : updateNestedFieldTyped fs tail v with
        | error e =>
          rw [hInner] at hup
          exact absurd hup (by simp [Except.map])
        | ok fs2 =>
          rw [hInner] at hup
          have hobj2 : setKey obj head (.group fs2 gvs) = obj2 := by
            simpa [Except.map] using hup
          subst hobj2
          cases q with
          | nil => exact ⟨rfl, rfl⟩
          | cons b bs =>
            by_cases hhb : head = b
            · subst hhb
              have hl2 : lookupKey (setKey obj head (.group fs2 gvs)) head =
                  some (.group fs2 gvs) :=
                lookupKey_setKey_self obj head _ _ hl
              cases bs with
              | nil =>
                constructor
                · simp only [leafValidatorsAt, hl2, hl]
                · simp only [groupValidatorsAt, hl2, hl]
              | cons x xs =>
                constructor
                · simp only [leafValidatorsAt, hl2, hl]
                  exact (ih fs fs2 v hInner (x :: xs)).1
                · simp only [groupValidatorsAt, hl2, hl]
                  exact (ih fs fs2 v hInner (x :: xs)).2
            · have hlk := lookupKey_setKey_ne obj head b
                (Node.group fs2 gvs : Node V F G) (fun hh => hhb hh.symm)
              exact ⟨leafValidatorsAt_congr _ _ _ _ hlk, groupValidatorsAt_congr _ _ _ _ hlk⟩

/-- A child-phase failure is returned by `validateGroup` as is. -/
theorem childPhase_error_group {V F G : Type} (evF : F → V → Except FailedMessage V)
    (evG : G → List (String × Node V F G) → Except FailedMessage (List (String × Node V F G)))
    (fs : List (String × Node V F G)) (gvs : List G) (e : FailedMessage)
    (h : childPhase evF evG fs = .error e) :
    validateGroupFields evF evG fs gvs = .error e := by
  simp only [validateGroupFields, h]
  rfl

/-- A child-phase failure is returned by `validateForm` as is. -/
theorem childPhase_error_form {V F G : Type} (evF : F → V → Except FailedMessage V)
    (evG : G → List (String × Node V F G) → Except FailedMessage (List (String × Node V F G)))
    (f : Form V F G) (e : FailedMessage)
    (h : childPhase evF evG f.fields = .error e) :
    Form.validateForm evF evG f = .error e := by
  simp only [Form.validateForm, h]
  rfl

/-- A failing first child makes the whole child phase fail with its error. -/
theorem childPhase_cons_error {V F G : Type} (evF : F → V → Except FailedMessage V)
    (evG : G → List (String × Node V F G) → Except FailedMessage (List (String × Node V F G)))
    (k : String) (n : Node V F G) (rest : List (String × Node V F G)) (e : FailedMessage)
    (h : validateNode evF evG n = .error e) :
    childPhase evF evG ((k, n) :: rest) = .error e := by
  simp only [childPhase, h]
  rfl

/-- A group child propagates its `validateGroup` failure through the
`instanceof` dispatch unchanged. -/
theorem validateNode_group_error {V F G : Type} (evF : F → V → Except FailedMessage V)
    (evG : G → List (String × Node V F G) → Except FailedMessage (List (String × Node V F G)))
    (fs : List (String × Node V F G)) (gvs : List G) (e : FailedMessage)
    (h : validateGroupFields evF evG fs gvs = .error e) :
    validateNode evF evG (.group fs gvs) = .error e := by
  simp only [validateNode, h]
  rfl

/-- A leaf child propagates its `validate` failure through the `instanceof`
dispatch unchanged. -/
theorem validateNode_leaf_error {V F G : Type} (evF : F → V → Except FailedMessage V)
    (evG : G → List (String × Node V F G) → Except FailedMessage (List (String × Node V F G)))
    (f : FormField V F) (e : FailedMessage)
    (h : FormField.validate evF f = .error e) :
    validateNode evF evG (.leaf f) = .error e := by
  simp only [validateNode, h]
  rfl

/-- Traced version: a child-phase failure is the result of the traced
`validateGroup`, whatever the group validators do. -/
theorem childPhaseT_error_groupT {V F G : Type} (evF : F → V → Except FailedMessage V)
    (evG : G → List (String × Node V F G) → Except FailedMessage (List (String × Node V F G)))
    (fs : List (String × Node V F G)) (gvs : List G) (e : FailedMessage)
    (h : (childPhaseT evF evG fs).1 = .error e) :
    (validateGroupFieldsT evF evG fs gvs).1 = .error e := by
  rcases hcp : childPhaseT evF evG fs with ⟨fr, flog⟩
  rw [hcp] at h
  simp only at h
  subst h
  rcases hgc : groupChainT evG gvs fs with ⟨gr, glog⟩
  simp only [validateGroupFieldsT, hcp, hgc]
  rfl

/-- Traced version: a child-phase failure is the result of the traced
`validateForm`, whatever the form validators do. -/
theorem childPhaseT_error_formT {V F G : Type} (evF : F → V → Except FailedMessage V)
    (evG : G → List (String × Node V F G) → Except FailedMessage (List (String × Node V F G)))
    (f : Form V F G) (e : FailedMessage)
    (h : (childPhaseT evF evG f.fields).1 = .error e) :
    (Form.validateFormT evF evG f).1 = .error e := by
  rcases hcp : childPhaseT evF evG f.fields with ⟨fr, flog⟩
  rw [hcp] at h
  simp only at h
  subst h
  rcases hgc : groupChainT evG f.formValidators f.fields with ⟨gr, glog⟩
  simp only [Form.validateFormT, hcp, hgc]
  rfl

/-- Traced trace of `validateGroup` is the child-phase trace followed by the
group-validator trace. -/
theorem validateGroupFieldsT_log {V F G : Type} (evF : F → V → Except FailedMessage V)
    (evG : G → List (String × Node V F G) → Except FailedMessage (List (String × Node V F G)))
    (fs : List (String × Node V F G)) (gvs : List G) :
    (validateGroupFieldsT evF evG fs gvs).2 =
      (childPhaseT evF evG fs).2 ++ (groupChainT evG gvs fs).2 := by
  rcases hcp : childPhaseT evF evG fs with ⟨fr, flog⟩
  rcases hgc : groupChainT evG gvs fs with ⟨gr, glog⟩
  simp only [validateGroupFieldsT, hcp, hgc]

/-- Traced trace of `validateForm` is the child-phase trace followed by the
form-validator trace. -/
theorem validateFormT_log {V F G : Type} (evF : F → V → Except FailedMessage V)
    (evG : G → List (String × Node V F G) → Except FailedMessage (List (String × Node V F G)))
    (f : Form V F G) :
    (Form.validateFormT evF evG f).2 =
      (childPhaseT evF evG f.fields).2 ++ (groupChainT evG f.formValidators f.fields).2 := by
  rcases hcp : childPhaseT evF evG f.fields with ⟨fr, flog⟩
  rcases hgc : groupChainT evG f.formValidators f.fields with ⟨gr, glog⟩
  simp only [Form.validateFormT, hcp, hgc]

/-!
## Claims
-/

/-- C2: `validate()` applies the leaf's validators in sequence, each step
receiving the value produced by the previous step; it returns the first
failure without invoking any later validator (the trace on failure is just
the failed validator); and a leaf constructed with an empty validator
sequence always succeeds with the stored value unchanged. -/
theorem c2_validator_chain {V F : Type} (evF : F → V → Except FailedMessage V) :
    (∀ v : V, FormField.validate evF (FormField.make v (.many [])) = .ok v) ∧
    (∀ (f : F) (rest : List F) (v : V),
      FormField.validate evF ⟨v, f :: rest⟩ =
        (evF f v).bind fun w => FormField.validate evF ⟨w, rest⟩) ∧
    (∀ (f : F) (rest : List F) (v : V),
      runChainT evF (f :: rest) v =
        (match evF f v with
         | .error e => (.error e, [f])
         | .ok w => ((runChainT evF rest w).1, f :: (runChainT evF rest w).2))) ∧
    (∀ fld : FormField V F, (runChainT evF fld.validators fld.value).1 = fld.validate evF) :=
  ⟨fun _ => rfl, validate_cons evF, runChainT_cons evF,
    fun fld => runChainT_fst evF fld.validators fld.value⟩

/-- C10: constructing a `FormField`, `FormFieldGroup` or `Form` with a bare
validator yields exactly the node constructed with the one-element array of
that validator, hence identical behaviour under every operation. -/
theorem c10_constructor_normalization {V F G : Type} :
    (∀ (v : V) (f : F), FormField.make v (.one f) = FormField.make v (.many [f])) ∧
    (∀ (fields : List (String × Node V F G)) (g : G),
      FormFieldGroup.make fields (.one g) = FormFieldGroup.make fields (.many [g])) ∧
    (∀ (fields : List (String × Node V F G)) (g : G),
      Form.make fields (.one g) = Form.make fields (.many [g])) :=
  ⟨fun _ _ => rfl, fun _ _ => rfl, fun _ _ => rfl⟩

/-- C3: write-then-read — for every tree, every valid leaf path and every
value, `setValueByPath` succeeds and `getValueByPath` on the result returns
the written value. -/
theorem c3_write_then_read {V F G : Type} (f : Form V F G) (p : String) (v : V)
    (h : isValidLeafPath f.fields (splitPath p) = true) :
    ∃ f2, f.setValueByPath p v = .ok f2 ∧ f2.getValueByPath p = .value v := by
  obtain ⟨obj2, hup, hget⟩ := updateNested_get (splitPath p) f.fields h v
  refine ⟨⟨obj2, f.formValidators⟩, ?_, ?_⟩
  · rw [Form.setValueByPath, hup]
    rfl
  · rw [Form.getValueByPath]
    exact hget

/-- Witness for C3 at a concrete nested path. -/
theorem c3_witness : ∃ f2, exForm.setValueByPath "address.street" "456 Oak Ave" = .ok f2 ∧
    f2.getValueByPath "address.street" = .value "456 Oak Ave" :=
  c3_write_then_read exForm "address.street" "456 Oak Ave" (by decide)

/-- C5: sibling isolation — a successful `setValueByPath` along `p` leaves the
value read at every path `q` that diverges from `p` (shares a level but
differs there, so does not lie on `p`'s ancestor chain) exactly as in the
original tree; the original tree itself is a pure value and is never
mutated. -/
theorem c5_sibling_isolation {V F G : Type} (f f2 : Form V F G) (p q : String) (v : V)
    (hdiv : diverges (splitPath p) (splitPath q) = true)
    (hset : f.setValueByPath p v = .ok f2) :
    f2.getValueByPath q = f.getValueByPath q := by
  rw [Form.setValueByPath] at hset
  cases hup : updateNestedFieldTyped f.fields (splitPath p) v with
  | error e =>
    rw [hup] at hset
    exact absurd hset (by simp [Except.map])
  | ok obj2 =>
    rw [hup] at hset
    have hf2 : (⟨obj2, f.formValidators⟩ : Form V F G) = f2 := by
      simpa [Except.map] using hset
    rw [Form.getValueByPath, Form.getValueByPath, ← hf2]
    exact updateNested_divergent (splitPath p) f.fields obj2 v (splitPath q) hdiv hup

/-- Witness for C5: updating `address.street` does not change `name`. -/
theorem c5_witness : exFormUpdated.getValueByPath "name" = exForm.getValueByPath "name" :=
  c5_sibling_isolation exForm exFormUpdated "address.street" "name" "456 Oak Ave"
    (by decide) (by rfl)

/-- C6: round-trip — writing back the value currently read at a valid leaf
path yields a tree in which every path reads the same value as in the
original tree. -/
theorem c6_roundtrip {V F G : Type} (f : Form V F G) (p : String) (w : V)
    (h1 : isValidLeafPath f.fields (splitPath p) = true)
    (h2 : f.getValueByPath p = .value w) :
    ∃ f2, f.setValueByPath p w = .ok f2 ∧
      ∀ q : String, f2.getValueByPath q = f.getValueByPath q := by
  rw [Form.getValueByPath] at h2
  have hup := updateNested_roundtrip (splitPath p) f.fields w h1 h2
  refine ⟨f, ?_, fun q => rfl⟩
  rw [Form.setValueByPath, hup]
  rfl

/-- Witness for C6 at a concrete leaf path. -/
theorem c6_witness : ∃ f2, exForm.setValueByPath "name" "John" = .ok f2 ∧
    ∀ q : String, f2.getValueByPath q = exForm.getValueByPath q :=
  c6_roundtrip exForm "name" "John" (by decide) (by rfl)

/-- C4: first-failure ordering with verbatim propagation — when both children
`[a, b]` fail, `validateGroup` returns `a`'s error; and a failing nested
group's error is surfaced by an enclosing group and by `validateForm`
character for character, not wrapped. -/
theorem c4_first_failure {V F G : Type} (evF : F → V → Except FailedMessage V)
    (evG : G → List (String × Node V F G) → Except FailedMessage (List (String × Node V F G))) :
    (∀ (ka : String) (a : Node V F G) (kb : String) (b : Node V F G)
      (gvs : List G) (ea eb : FailedMessage),
      validateNode evF evG a = .error ea → validateNode evF evG b = .error eb →
      validateGroupFields evF evG [(ka, a), (kb, b)] gvs = .error ea) ∧
    (∀ (kg : String) (inner : List (String × Node V F G)) (gvsIn gvsOut : List G)
      (e : FailedMessage),
      validateGroupFields evF evG inner gvsIn = .error e →
      validateGroupFields evF evG [(kg, .group inner gvsIn)] gvsOut = .error e ∧
      Form.validateForm evF evG ⟨[(kg, .group inner gvsIn)], gvsOut⟩ = .error e) := by
  constructor
  · intro ka a kb b gvs ea eb ha hb
    exact childPhase_error_group evF evG _ gvs ea (childPhase_cons_error evF evG ka a _ ea ha)
  · intro kg inner gvsIn gvsOut e h
    have hn := validateNode_group_error evF evG inner gvsIn e h
    have hcp := childPhase_cons_error evF evG kg (.group inner gvsIn) [] e hn
    exact ⟨childPhase_error_group evF evG _ gvsOut e hcp,
      childPhase_error_form evF evG ⟨[(kg, .group inner gvsIn)], gvsOut⟩ e hcp⟩

/-- Witness for C4: with both children of `exBothFail` failing, the group
error is the first child's error, verbatim. -/
theorem c4_witness :
    validateGroupFields evalLCode evalGCode exBothFail [] = .error ⟨"error a"⟩ :=
  (c4_first_failure evalLCode evalGCode).1 "a" (.leaf ⟨"x", [.failMsg "error a"]⟩)
    "b" (.leaf ⟨"y", [.failMsg "error b"]⟩) [] ⟨"error a"⟩ ⟨"error b"⟩
    (by simp [validateNode, FormField.validate, evalLCode, Except.map, Except.bind])
    (by simp [validateNode, FormField.validate, evalLCode, Except.map, Except.bind])

/-- C1 counterexample: in a group (and form) with a failing leaf child and one
group (resp. form) validator, the returned result is the child's failure, yet
the trace records that the group-level (resp. form-level) validator was
invoked — the source computes `groupValidationResult` eagerly and only
discards it.  This refutes "group-level and form-level validators are never
invoked". -/
theorem c1_counterexample :
    validateGroupFieldsT evalLCode evalGCode exFields [GCode.gpass] =
      (.error ⟨"child failed"⟩,
        [.leafV (.failMsg "child failed"), .groupV .gpass]) ∧
    Form.validateFormT evalLCode evalGCode ⟨exFields, [GCode.gpass]⟩ =
      (.error ⟨"child failed"⟩,
        [.leafV (.failMsg "child failed"), .groupV .gpass]) := by
  constructor <;>
    simp [validateGroupFieldsT, Form.validateFormT, childPhaseT, validateNodeT,
      runChainT, groupChainT, chainStepT, groupStepT, exFields, evalLCode,
      evalGCode, Except.map, Except.bind]

/-- C1 (amended): when the child phase fails, `validateGroup`/`validateForm`
stop at the first failing child (no later child is validated — its trace is
exactly that child's trace) and return exactly that child's failure; however
the group-level (resp. form-level) validator chain is still evaluated eagerly
(its first validator always appears in the trace), its result discarded. -/
theorem c1_tier_gating_amended {V F G : Type} (evF : F → V → Except FailedMessage V)
    (evG : G → List (String × Node V F G) → Except FailedMessage (List (String × Node V F G))) :
    (∀ (k : String) (n : Node V F G) (rest : List (String × Node V F G)) (e : FailedMessage),
      (validateNodeT evF evG n).1 = .error e →
      childPhaseT evF evG ((k, n) :: rest) = (.error e, (validateNodeT evF evG n).2)) ∧
    (∀ (fs : List (String × Node V F G)) (gvs : List G) (e : FailedMessage),
      (childPhaseT evF evG fs).1 = .error e →
      (validateGroupFieldsT evF evG fs gvs).1 = .error e) ∧
    (∀ (f : Form V F G) (e : FailedMessage),
      (childPhaseT evF evG f.fields).1 = .error e →
      (Form.validateFormT evF evG f).1 = .error e) ∧
    (∀ (fs : List (String × Node V F G)) (g : G) (rest : List G),
      TraceEv.groupV g ∈ (validateGroupFieldsT evF evG fs (g :: rest)).2 ∧
      TraceEv.groupV g ∈ (Form.validateFormT evF evG ⟨fs, g :: rest⟩).2) := by
  refine ⟨?_, childPhaseT_error_groupT evF evG, childPhaseT_error_formT evF evG, ?_⟩
  · intro k n rest e h
    rcases hn : validateNodeT evF evG n with ⟨r, log⟩
    rw [hn] at h
    simp only at h
    subst h
    simp only [childPhaseT, hn]
  · intro fs g rest
    obtain ⟨tr, htr⟩ := groupChainT_cons_log evG fs g rest
    constructor
    · rw [validateGroupFieldsT_log, htr]
      exact List.mem_append_right _ (List.mem_cons_self _ _)
    · rw [validateFormT_log, htr]
      exact List.mem_append_right _ (List.mem_cons_self _ _)

/-- Witness for the amended C1 at the concrete failing group. -/
theorem c1_witness :
    (validateGroupFieldsT evalLCode evalGCode exFields [GCode.gpass]).1 =
      .error ⟨"child failed"⟩ ∧
    TraceEv.groupV GCode.gpass ∈
      (validateGroupFieldsT evalLCode evalGCode exFields [GCode.gpass]).2 :=
  ⟨(c1_tier_gating_amended evalLCode evalGCode).2.1 exFields [GCode.gpass]
      ⟨"child failed"⟩
      (by simp [childPhaseT, validateNodeT, runChainT, chainStepT, exFields,
        evalLCode, Except.map]),
    ((c1_tier_gating_amended evalLCode evalGCode).2.2.2 exFields GCode.gpass []).1⟩

/-- C7 counterexample: at a path whose segment is absent, `setValueByPath`
throws the key-not-found error, but `getValueByPath` does not fail with a
key-not-found condition — it returns the JS value `undefined`. -/
theorem c7_counterexample :
    exForm.setValueByPath "missing" "v" =
      .error "Invalid path: key 'missing' not found" ∧
    exForm.getValueByPath "missing" = .undef := by
  constructor <;> rfl

/-- C7 (amended): for a path that reaches a segment absent from the mapping at
its level, `setValueByPath` fails with the key-not-found error; `getValueByPath`
instead returns `undefined` when the missing segment is final and raises a
`TypeError` when further segments remain — it never reports key-not-found. -/
theorem c7_key_not_found_amended {V F G : Type} :
    (∀ (f : Form V F G) (p : String) (v : V),
      missesKey f.fields (splitPath p) = true →
      ∃ k, f.setValueByPath p v =
        .error ("Invalid path: key '" ++ k ++ "' not found")) ∧
    (∀ (f : Form V F G) (p : String),
      missesKey f.fields (splitPath p) = true →
      f.getValueByPath p = .undef ∨ f.getValueByPath p = .typeError) := by
  constructor
  · intro f p v h
    obtain ⟨k, hk⟩ := updateNested_missing (splitPath p) f.fields v h
    refine ⟨k, ?_⟩
    rw [Form.setValueByPath, hk]
    rfl
  · intro f p h
    rw [Form.getValueByPath]
    exact getNested_missing (splitPath p) f.fields h

/-- Witness for the amended C7 at a concrete missing key. -/
theorem c7_witness :
    (∃ k, exForm.setValueByPath "missing" "v" =
      .error ("Invalid path: key '" ++ k ++ "' not found")) ∧
    (exForm.getValueByPath "missing" = .undef ∨
      exForm.getValueByPath "missing" = .typeError) :=
  ⟨(c7_key_not_found_amended).1 exForm "missing" "v" (by decide),
   (c7_key_not_found_amended).2 exForm "missing" (by decide)⟩

/-- C8 counterexample: with the empty path, `getValueByPath` does not fail at
all (it returns `undefined`), and `setValueByPath` fails with the
key-not-found error for the key `''` — neither reports an "empty path"
condition (the source's `Invalid path: cannot replace entire object` check is
unreachable because `''.split('.')` is `['']`, not `[]`). -/
theorem c8_counterexample :
    exForm.getValueByPath "" = .undef ∧
    exForm.setValueByPath "" "v" = .error "Invalid path: key '' not found" := by
  constructor <;> rfl

/-- C8 (amended): the empty path string is split into the single segment `''`,
which is looked up as an ordinary key: when `''` is not a key of the root
record, `setValueByPath` throws key `''` not found and `getValueByPath`
returns `undefined`; no "empty path" condition is reported. -/
theorem c8_empty_path_amended {V F G : Type} (f : Form V F G) (v : V)
    (h : lookupKey f.fields "" = none) :
    f.setValueByPath "" v = .error "Invalid path: key '' not found" ∧
    f.getValueByPath "" = .undef := by
  have hsplit : splitPath "" = [""] := by decide
  constructor
  · rw [Form.setValueByPath, hsplit, updateNestedFieldTyped, h]
    rfl
  · rw [Form.getValueByPath, hsplit, getNestedValue, h]
    rfl

/-- Witness for the amended C8 at a concrete form. -/
theorem c8_witness :
    exForm.setValueByPath "" "v" = .error "Invalid path: key '' not found" ∧
    exForm.getValueByPath "" = .undef :=
  c8_empty_path_amended exForm "v" (by rfl)

/-- C9: validator preservation and unconditional writes — `setNewValue`
returns a new leaf with the written value and the identical validator list,
performing no validation (it is total and unconditional); a successful
`setValueByPath` preserves the leaf-validator and group-validator lists
observable at every path, and rebuilds the root with the original form
validators. -/
theorem c9_validator_preservation {V F G : Type} :
    (∀ (fld : FormField V F) (w : V), fld.setNewValue w = ⟨w, fld.validators⟩) ∧
    (∀ (obj obj2 : List (String × Node V F G)) (p : List String) (v : V),
      updateNestedFieldTyped obj p v = .ok obj2 →
      ∀ q, leafValidatorsAt obj2 q = leafValidatorsAt obj q ∧
        groupValidatorsAt obj2 q = groupValidatorsAt obj q) ∧
    (∀ (f f2 : Form V F G) (p : String) (v : V),
      f.setValueByPath p v = .ok f2 → f2.formValidators = f.formValidators) := by
  refine ⟨fun _ _ => rfl, ?_, ?_⟩
  · intro obj obj2 p v hup q
    exact updateNested_validators p obj obj2 v hup q
  · intro f f2 p v hset
    rw [Form.setValueByPath] at hset
    cases hup : updateNestedFieldTyped f.fields (splitPath p) v with
    | error e =>
      rw [hup] at hset
      exact absurd hset (by simp [Except.map])
    | ok obj2 =>
      rw [hup] at hset
      have hf2 : (⟨obj2, f.formValidators⟩ : Form V F G) = f2 := by
        simpa [Except.map] using hset
      rw [← hf2]

/-- Witness for C9: the concrete update at `address.street` preserves the
validators at `name` and at `address`, and the form validators. -/
theorem c9_witness :
    (leafValidatorsAt exFormUpdated.fields ["name"] =
      leafValidatorsAt exForm.fields ["name"] ∧
     groupValidatorsAt exFormUpdated.fields ["name"] =
      groupValidatorsAt exForm.fields ["name"]) ∧
    exFormUpdated.formValidators = exForm.formValidators :=
  ⟨(c9_validator_preservation).2.1 exForm.fields exFormUpdated.fields
      (splitPath "address.street") "456 Oak Ave" (by rfl) ["name"],
   (c9_validator_preservation).2.2 exForm exFormUpdated "address.street"
      "456 Oak Ave" (by rfl)⟩
